import Mathlib

/-!
Verification development for the `ferror` / `thaterror` error toolkit.

The development shallowly embeds the runtime behaviour of the repository's
core: the `That` family constructor (`src/unnamed/part_001`, which holds a
current and an older revision of `define.ts`), the `defineError` constructor
(`src/packages/core/src/define.ts`), the free `is` / `isDefinedError` guards
(`src/unnamed/part_002`), and the family-level `enroll` / `bridge` / `from`
protocol, whose implementation file (`family.ts`) is not among the sources and
is therefore modelled from the specification.

Modelling conventions:
  * JavaScript symbols and freshly allocated objects are numbered by a single
    counter threaded through the functions that allocate
    (`Symbol("ErrorFamilyScope")` in `That` / `defineError`, `new
    InternalBaseError` in the case factories); distinct allocations receive
    distinct numbers, which is exactly the uniqueness/identity guarantee of
    `Symbol()` and of `new` in the source runtime.
  * JavaScript runtime values relevant to the code's `typeof` /
    `Array.isArray` / `!== null` tests are the inductive `Value`; plain
    objects and arrays are opaque references except for an object's `cause`
    property, which the error constructors read.
  * `undefined` is `Value.vundefined`; a field holding `vundefined` is
    indistinguishable from an absent field, matching how every code path in
    the sources reads these fields (`options?.cause`, `new Error(msg, opts)`).
-/

namespace Ferror

/-- JavaScript runtime values, as far as the sources inspect them.  A plain
object carries the value of its `cause` property (`vundefined` when absent); other
properties are never read by the embedded code paths. -/
inductive Value where
  | vnum (n : Int)
  | vstr (s : String)
  | vbool (b : Bool)
  | vsym (id : Nat)
  | vundefined
  | vnull
  | vobj (id : Nat) (cause : Value)
  | varr (id : Nat)
deriving DecidableEq, Repr

/-- `typeof v === "object"` (true for plain objects, arrays and `null`). -/
def Value.typeofObject : Value → Bool
  | .vobj _ _ => true
  | .varr _ => true
  | .vnull => true
  | _ => false

/-- `Array.isArray(v)`. -/
def Value.isArrayV : Value → Bool
  | .varr _ => true
  | _ => false

/-- The `cause` read by `new Error(message, options)`: installed only when
`options` is a non-null object carrying the property, `undefined` otherwise. -/
def optionsCause : Value → Value
  | .vobj _ c => c
  | _ => .vundefined

/-- A schema entry (`ErrorSpec` in `types.ts`): a literal message string, a
message function with its declared parameter count (`spec.length`) and its
behaviour on any argument list, or any other runtime value (`other`), which
the type system rules out but the factories still test for with `typeof`. -/
inductive ErrorSpec where
  | str (s : String)
  | fn (arity : Nat) (f : List Value → String)
  | other

/-- A spec is well formed when it is a string or a function. -/
def ErrorSpec.wf : ErrorSpec → Bool
  | .other => false
  | _ => true

/-- An `InternalBaseError` instance.  `oid` is the allocation number of the
`new` call that produced it (object identity); the remaining fields are the
instance's own properties: `code` / `[CodeField]`, `name` (set to `code` in
the constructor), `scope` / `[ScopeField]`, `[PayloadField]`, `message`,
`cause` and `[MetaField]`. -/
structure DefinedError where
  oid : Nat
  code : String
  name : String
  scope : Nat
  payload : List Value
  message : String
  cause : Value
  meta : List (String × Value)
deriving DecidableEq, Repr

/-- A case factory as a value: the function object carries `[CodeField]` (the
schema key) and `[ScopeField]` (the owning family's scope), and closes over
its schema entry `spec`. -/
structure ErrorCase where
  code : String
  scope : Nat
  spec : ErrorSpec

/-- The `is` method of `InternalBaseError` (`src/unnamed/part_001`, both
revisions): `this[CodeField] === errorCase[CodeField]` — a bare code
comparison, the scope is not consulted. -/
def DefinedError.isCase (e : DefinedError) (c : ErrorCase) : Bool :=
  e.code == c.code

/-- The free `is` guard of `src/unnamed/part_002`, specialised to values that
are family instances (for which its `instanceof Error` and `ErrorBrand in
error` guards hold by construction): the residual check is
`error.name === factory.code`. -/
def freeIs (e : DefinedError) (c : ErrorCase) : Bool :=
  e.name == c.code

/-- Options bag for the `with` method (`options?: ErrorOptions`): the `cause`
property, `vundefined` when absent. -/
structure ErrorOptions where
  cause : Value := .vundefined
deriving DecidableEq, Repr

/-- Property lookup in a metadata record represented as an association list in
assignment order: the latest entry for a key wins, as in a JavaScript object
built by spreads. -/
def metaGet (m : List (String × Value)) (k : String) : Option Value :=
  (m.reverse.find? (fun p => p.1 == k)).map (fun p => p.2)

/-- The `with` method of the current revision (`src/unnamed/part_001`, lines
55-59): `this.cause = options?.cause` (an unconditional assignment), then
`this[MetaField] = {...this[MetaField], ...meta}` (a spread merge, which under
the last-entry-wins lookup of `metaGet` is list append), and `return this`
(hence every other field, and the object identity `oid`, are untouched).  The
source method is named `with`, a reserved word in Lean. -/
def DefinedError.withOptions (e : DefinedError) (options : Option ErrorOptions)
    (meta : List (String × Value)) : DefinedError :=
  { e with
    cause := (options.map ErrorOptions.cause).getD .vundefined
    meta := e.meta ++ meta }

/-- The constructor of the current revision's `InternalBaseError`
(`src/unnamed/part_001`, lines 38-53): stores code (also as `name`), payload
`args` verbatim, scope and message; `cause` starts `undefined` and
`[MetaField]` starts `{}`. -/
def mkInstance (oid : Nat) (code : String) (args : List Value) (scope : Nat)
    (message : String) : DefinedError :=
  { oid, code, name := code, scope, payload := args, message,
    cause := .vundefined, meta := [] }

/-- The constructor of the older `InternalBaseError`
(`src/unnamed/part_001` lines 112-126, and `src/packages/core/src/define.ts`
lines 18-30): as `mkInstance`, but `super(message, options)` installs
`options.cause` when `options` is a non-null object. -/
def mkInstanceOpt (oid : Nat) (code : String) (args : List Value) (scope : Nat)
    (message : String) (options : Value) : DefinedError :=
  { oid, code, name := code, scope, payload := args, message,
    cause := optionsCause options, meta := [] }

/-- The case factory of the current `That` (`src/unnamed/part_001`, lines
68-80): function specs are applied to the whole argument list, string specs
use the literal; anything else throws `Invalid error spec ...`.  No options
sniffing; the payload is the argument list verbatim.  `fresh` numbers the
`new` allocation. -/
def invokeThat (c : ErrorCase) (args : List Value) (fresh : Nat) :
    Except String DefinedError × Nat :=
  match c.spec with
  | .fn _ f => (.ok (mkInstance fresh c.code args c.scope (f args)), fresh + 1)
  | .str s => (.ok (mkInstance fresh c.code args c.scope s), fresh + 1)
  | .other => (.error "Invalid error spec", fresh)

/-- The trailing-argument options test of the older `That` (lines 148-149):
`lastArg !== null && typeof lastArg === "object" && !Array.isArray(lastArg)`. -/
def oldThatOptionsSniff (v : Value) : Bool :=
  !(v == .vnull) && v.typeofObject && !v.isArrayV

/-- The trailing-argument options test of `defineError` (`define.ts` line 49):
`typeof lastArg === "object" && lastArg !== null` — arrays count as bags. -/
def defineErrorOptionsSniff (v : Value) : Bool :=
  v.typeofObject && !(v == .vnull)

/-- The case factory of the older `That` (`src/unnamed/part_001`, lines
142-164): for a function spec, when more arguments than the spec's declared
parameter count are supplied and the last is a non-null non-array object, that
last argument is split off as the options bag; the message is the spec applied
to the remaining arguments, which are stored as the payload.  For a string
spec the payload is `[]` and `args[0]` is taken as the options bag.  Any other
spec kind throws `Invalid ErrorSpec`. -/
def invokeOldThat (c : ErrorCase) (args : List Value) (fresh : Nat) :
    Except String DefinedError × Nat :=
  match c.spec with
  | .fn arity f =>
    let last := args.getLast?.getD .vundefined
    let sniff := decide (arity < args.length) && oldThatOptionsSniff last
    let finalArgs := if sniff then args.dropLast else args
    let options := if sniff then last else .vundefined
    (.ok (mkInstanceOpt fresh c.code finalArgs c.scope (f finalArgs) options),
      fresh + 1)
  | .str s =>
    (.ok (mkInstanceOpt fresh c.code [] c.scope s (args.headD .vundefined)),
      fresh + 1)
  | .other => (.error "Invalid ErrorSpec", fresh)

/-- The case factory of `defineError` (`src/packages/core/src/define.ts`,
lines 42-63): as the older `That` factory, except that the options test omits
`Array.isArray`, and — decisively — there is no `else` branch after the string
test: for a spec that is neither a function nor a string the factory falls
through and returns `undefined` (`none`) instead of throwing. -/
def invokeDefineError (c : ErrorCase) (args : List Value) (fresh : Nat) :
    Option DefinedError × Nat :=
  match c.spec with
  | .fn arity f =>
    let last := args.getLast?.getD .vundefined
    let sniff := decide (arity < args.length) && defineErrorOptionsSniff last
    let finalArgs := if sniff then args.dropLast else args
    let options := if sniff then last else .vundefined
    (some (mkInstanceOpt fresh c.code finalArgs c.scope (f finalArgs) options),
      fresh + 1)
  | .str s =>
    (some (mkInstanceOpt fresh c.code [] c.scope s (args.headD .vundefined)),
      fresh + 1)
  | .other => (none, fresh)

/-- An error schema: case names mapped to specs, in declaration order. -/
abbrev ErrorMap := List (String × ErrorSpec)

/-- A foreign (non-family) error instance: its allocation number (used when it
is attached as a `cause`) and its runtime class chain — own class first, then
ancestor classes. -/
structure ForeignError where
  oid : Nat
  classChain : List Nat

/-- One entry of a family's enrollment table: an `enroll` registration
(foreign class, target case, optional payload transformer) or a `bridge`
registration (foreign class, dispatcher).  A dispatcher itself invokes family
cases, so it threads the allocation counter. -/
inductive Enrollment where
  | enrollEntry (classId : Nat) (target : ErrorCase)
      (transformer : Option (ForeignError → List Value))
  | bridgeEntry (classId : Nat)
      (dispatcher : ForeignError → Nat → Except String DefinedError × Nat)

/-- The foreign class an entry is registered for. -/
def Enrollment.classId : Enrollment → Nat
  | .enrollEntry c _ _ => c
  | .bridgeEntry c _ => c

/-- An entry matches a foreign instance when its registered class is the
instance's runtime class or one of its ancestor classes. -/
def Enrollment.matchesF (en : Enrollment) (e : ForeignError) : Bool :=
  e.classChain.contains en.classId

/-- A family value: the shared scope token, the cases keyed by name, and the
enrollment table. -/
structure ErrorFamily where
  scope : Nat
  cases : List (String × ErrorCase)
  enrollments : List Enrollment

/-- Modelled from the spec: `createFamilyInstance` lives in `family.ts`, which
is not among the sources (only its type declarations and callers are).  Per
spec §4.3 it assembles the family object exposing the cases by name, the
scope, and the enrollment-based methods over the given table. -/
def createFamilyInstance (cases : List (String × ErrorCase)) (scope : Nat)
    (enrollments : List Enrollment) : ErrorFamily :=
  { scope, cases, enrollments }

/-- The current `That` constructor (`src/unnamed/part_001`, lines 19-89):
allocates one fresh scope symbol, builds one case per schema key — each
carrying `[CodeField] = key` and the shared `[ScopeField]` — and assembles the
family with an empty enrollment table. -/
def That (m : ErrorMap) (fresh : Nat) : ErrorFamily × Nat :=
  let scope := fresh
  let cases := m.map (fun p => (p.1, ErrorCase.mk p.1 scope p.2))
  (createFamilyInstance cases scope [], fresh + 1)

/-- The `defineError` constructor (`src/packages/core/src/define.ts`, lines
33-73): likewise allocates one fresh scope symbol (`Symbol()`) and builds one
case per schema key sharing it; its result object carries the cases and the
scope (it has no enrollment methods, so its table is empty). -/
def defineError (m : ErrorMap) (fresh : Nat) : ErrorFamily × Nat :=
  let scope := fresh
  let cases := m.map (fun p => (p.1, ErrorCase.mk p.1 scope p.2))
  ({ scope, cases, enrollments := [] }, fresh + 1)

/-- Look a case up by name on a family object. -/
def ErrorFamily.getCase (f : ErrorFamily) (k : String) : Option ErrorCase :=
  (f.cases.find? (fun p => p.1 == k)).map (fun p => p.2)

/-- Modelled from the spec: `enroll` lives in the missing `family.ts`.  Per
spec §4.4 it returns a new family value that is the original plus one more
entry mapping `foreignClass -> (targetCase, transformer)`, leaving the
original's table untouched, and it must fail with a registration error when
the case's scope differs from the family's scope. -/
def ErrorFamily.enroll (f : ErrorFamily) (classId : Nat) (target : ErrorCase)
    (transformer : Option (ForeignError → List Value)) :
    Except String ErrorFamily :=
  if target.scope == f.scope then
    .ok { f with
          enrollments := f.enrollments ++ [.enrollEntry classId target transformer] }
  else
    .error "case does not belong to this family"

/-- Modelled from the spec: `bridge` lives in the missing `family.ts`.  Per
spec §4.5 it appends a dispatcher entry with the same copy-on-extend
semantics as `enroll`. -/
def ErrorFamily.bridge (f : ErrorFamily) (classId : Nat)
    (dispatcher : ForeignError → Nat → Except String DefinedError × Nat) :
    ErrorFamily :=
  { f with enrollments := f.enrollments ++ [.bridgeEntry classId dispatcher] }

/-- Modelled from the spec: `from` lives in the missing `family.ts`.  Per spec
§4.6 it scans the enrollment table most-recently-registered first for an entry
whose class is the foreign instance's class or an ancestor; an `enroll` match
computes the payload via the transformer (empty when none), invokes the target
case with it and attaches the foreign instance as `cause`; a `bridge` match
delegates to the dispatcher; no match raises a "not registered" error.  The
source method is named `from`, a reserved word in Lean. -/
def ErrorFamily.fromForeign (f : ErrorFamily) (e : ForeignError) (fresh : Nat) :
    Except String DefinedError × Nat :=
  match f.enrollments.reverse.find? (fun en => en.matchesF e) with
  | none => (.error "not registered", fresh)
  | some (.enrollEntry _ target tr) =>
    let payload := (tr.map (fun t => t e)).getD []
    (match invokeThat target payload fresh with
     | (.ok inst, fresh') => (.ok { inst with cause := .vobj e.oid .vundefined }, fresh')
     | r => r)
  | some (.bridgeEntry _ d) => d e fresh

/-- Modelled from the spec: the `payloadOf` accessor (spec §6,
`payloadOf(instance) -> payload tuple`) is not among the sources (only its
pino-adapter caller is); it reads the instance's `[PayloadField]`. -/
def payloadOf (e : DefinedError) : List Value :=
  e.payload

/-- Modelled from the spec: the `codeOf` accessor (spec §6,
`codeOf(instance) -> string`) is not among the sources; it reads the
instance's code. -/
def codeOf (e : DefinedError) : String :=
  e.code

/-- An arbitrary object as inspected by `isDefinedError`: whether it is an
`Error` instance (`instanceof Error`), and the values found at the
`ErrorBrand` symbol key and at the public `code` and `scope` properties
(`none` = property absent, so `typeof` sees `"undefined"`). -/
structure ErrObj where
  instOfError : Bool
  brandField : Option Value
  codeProp : Option Value
  scopeProp : Option Value
deriving DecidableEq, Repr

/-- An `unknown` argument to `isDefinedError`: a primitive value or an
object. -/
inductive JSValue where
  | prim (v : Value)
  | object (o : ErrObj)
deriving DecidableEq, Repr

/-- `typeof x === "string"` on a possibly absent property. -/
def typeofString : Option Value → Bool
  | some (.vstr _) => true
  | _ => false

/-- `typeof x === "symbol"` on a possibly absent property. -/
def typeofSymbol : Option Value → Bool
  | some (.vsym _) => true
  | _ => false

/-- `isDefinedError` (`src/unnamed/part_002`, lines 14-26): false unless the
value is an `Error` instance; then `err[ErrorBrand] === true`, `typeof
err.code === "string"` and `typeof err.scope === "symbol"` must all hold. -/
def isDefinedError (v : JSValue) : Bool :=
  match v with
  | .prim _ => false
  | .object o =>
    if !o.instOfError then false
    else
      (o.brandField == some (.vbool true)) &&
      typeofString o.codeProp && typeofSymbol o.scopeProp

/-- The view of a family instance as `isDefinedError` sees it:
`InternalBaseError extends Error` (so `instanceof Error` holds), its field
initialiser sets `[ErrorBrand] = true`, and its constructor parameters declare
the public `code : Code` (a string) and `scope : symbol` properties. -/
def DefinedError.asJSValue (e : DefinedError) : JSValue :=
  .object { instOfError := true, brandField := some (.vbool true),
            codeProp := some (.vstr e.code), scopeProp := some (.vsym e.scope) }

/-! ### Shared lemmas about the embedded operations -/

/-- A case looked up on a `That`-built family carries the schema key as its
code, the family's scope, and a spec drawn from the schema. -/
theorem That_getCase_fields (m : ErrorMap) (fr : Nat) (k : String) (c : ErrorCase)
    (h : ((That m fr).1).getCase k = some c) :
    c.code = k ∧ c.scope = fr ∧ (k, c.spec) ∈ m := by
  simp only [That, createFamilyInstance, ErrorFamily.getCase] at h
  cases hf : List.find? (fun p => p.1 == k)
      (m.map (fun p => (p.1, ErrorCase.mk p.1 fr p.2))) with
  | none => rw [hf] at h; exact absurd h (by simp)
  | some pr =>
    rw [hf] at h
    have hpred := List.find?_some hf
    have hmem := List.mem_of_find?_eq_some hf
    simp only [List.mem_map] at hmem
    obtain ⟨q, hq, hpr⟩ := hmem
    have hc : pr.2 = c := by simpa using h
    subst hpr
    simp only [beq_iff_eq] at hpred
    subst hpred
    subst hc
    exact ⟨rfl, rfl, hq⟩

/-- Field values of an instance successfully produced by the current `That`
factory: code and name are the case's code, scope is the case's scope, the
payload is the argument list verbatim, the object id is the allocation
counter, and the counter advances by one. -/
theorem invokeThat_ok_fields (c : ErrorCase) (args : List Value) (fresh : Nat)
    (e : DefinedError) (h : (invokeThat c args fresh).1 = .ok e) :
    e.code = c.code ∧ e.name = c.code ∧ e.scope = c.scope ∧ e.oid = fresh ∧
      e.payload = args ∧ (invokeThat c args fresh).2 = fresh + 1 := by
  cases hs : c.spec with
  | fn arity f =>
    simp only [invokeThat, hs, Except.ok.injEq] at h
    subst h
    simp [invokeThat, hs, mkInstance]
  | str s =>
    simp only [invokeThat, hs, Except.ok.injEq] at h
    subst h
    simp [invokeThat, hs, mkInstance]
  | other =>
    simp [invokeThat, hs] at h

/-- A well-formed spec makes the current `That` factory succeed. -/
theorem invokeThat_wf_ok (c : ErrorCase) (args : List Value) (fresh : Nat)
    (h : c.spec.wf = true) : ∃ e, (invokeThat c args fresh).1 = .ok e := by
  cases hs : c.spec with
  | fn arity f =>
    exact ⟨mkInstance fresh c.code args c.scope (f args), by simp [invokeThat, hs]⟩
  | str s =>
    exact ⟨mkInstance fresh c.code args c.scope s, by simp [invokeThat, hs]⟩
  | other =>
    rw [hs] at h
    simp [ErrorSpec.wf] at h

/-- Lookup in an appended metadata record: the appended (newer) entries win,
older entries survive where not shadowed. -/
theorem metaGet_append (a b : List (String × Value)) (k : String) :
    metaGet (a ++ b) k = (metaGet b k).or (metaGet a k) := by
  simp only [metaGet, List.reverse_append, List.find?_append]
  cases b.reverse.find? (fun p => p.1 == k) <;> simp

/-- No enrollment entry of the family is registered for the foreign
instance's class or any of its ancestors, so the gateway raises the
"not registered" failure. -/
theorem fromForeign_no_match (f : ErrorFamily) (e : ForeignError) (fr : Nat)
    (h : ∀ en ∈ f.enrollments, en.classId ∉ e.classChain) :
    (f.fromForeign e fr).1 = .error "not registered" := by
  have hnone : f.enrollments.reverse.find? (fun en => en.matchesF e) = none := by
    rw [List.find?_eq_none]
    intro en hen
    have hmem := h en (List.mem_reverse.mp hen)
    simp [Enrollment.matchesF, hmem]
  simp [ErrorFamily.fromForeign, hnone]

/-! ### Claim theorems -/

/-- C1: `is` returns true exactly when the instance's code equals the case's
code marker; in particular an instance produced by one family's case
satisfies `is` against the same-named case of an independently constructed
family (whose scope differs) — scope is not compared.  The free `is` guard of
`part_002` (which compares `name`, set to the code) agrees. -/
theorem is_compares_code_only
    (m1 m2 : ErrorMap) (k : String) (fr1 fr2 fr3 : Nat)
    (c1 c2 : ErrorCase) (args : List Value) (e : DefinedError)
    (h1 : ((That m1 fr1).1).getCase k = some c1)
    (h2 : ((That m2 fr2).1).getCase k = some c2)
    (he : (invokeThat c1 args fr3).1 = .ok e)
    (hfam : fr1 ≠ fr2) :
    (∀ c : ErrorCase, e.isCase c = true ↔ e.code = c.code) ∧
    e.isCase c2 = true ∧ freeIs e c2 = true ∧ e.scope ≠ c2.scope := by
  obtain ⟨hc1, hs1, _⟩ := That_getCase_fields m1 fr1 k c1 h1
  obtain ⟨hc2, hs2, _⟩ := That_getCase_fields m2 fr2 k c2 h2
  obtain ⟨hec, hen, hesc, _, _, _⟩ := invokeThat_ok_fields c1 args fr3 e he
  refine ⟨?_, ?_, ?_, ?_⟩
  · intro c
    simp [DefinedError.isCase]
  · simp [DefinedError.isCase, hec, hc1, hc2]
  · simp [freeIs, hen, hc1, hc2]
  · rw [hesc, hs1, hs2]
    exact hfam

/-- C1 witness: the instance `F1.NotFound()` of the family
`That {NotFound: "a"}` satisfies `is` against the same-named case of the
independently built family `That {NotFound: "b"}`. -/
theorem is_compares_code_only_w :
    ((That [("NotFound", ErrorSpec.str "a")] 0).1).getCase "NotFound"
        = some (ErrorCase.mk "NotFound" 0 (ErrorSpec.str "a")) ∧
    ((That [("NotFound", ErrorSpec.str "b")] 1).1).getCase "NotFound"
        = some (ErrorCase.mk "NotFound" 1 (ErrorSpec.str "b")) ∧
    (invokeThat (ErrorCase.mk "NotFound" 0 (ErrorSpec.str "a")) [] 2).1
        = .ok (mkInstance 2 "NotFound" [] 0 "a") ∧
    ((∀ c : ErrorCase,
        (mkInstance 2 "NotFound" [] 0 "a").isCase c = true ↔
        (mkInstance 2 "NotFound" [] 0 "a").code = c.code) ∧
      (mkInstance 2 "NotFound" [] 0 "a").isCase
          (ErrorCase.mk "NotFound" 1 (ErrorSpec.str "b")) = true ∧
      freeIs (mkInstance 2 "NotFound" [] 0 "a")
          (ErrorCase.mk "NotFound" 1 (ErrorSpec.str "b")) = true ∧
      (mkInstance 2 "NotFound" [] 0 "a").scope ≠
          (ErrorCase.mk "NotFound" 1 (ErrorSpec.str "b")).scope) :=
  ⟨rfl, rfl, rfl,
    is_compares_code_only [("NotFound", ErrorSpec.str "a")]
      [("NotFound", ErrorSpec.str "b")] "NotFound" 0 1 2
      (ErrorCase.mk "NotFound" 0 (ErrorSpec.str "a"))
      (ErrorCase.mk "NotFound" 1 (ErrorSpec.str "b")) []
      (mkInstance 2 "NotFound" [] 0 "a") rfl rfl rfl (by decide)⟩

/-- C2: two families built by separate constructor calls from the same schema
receive distinct scope tokens (each call allocates a fresh symbol); an
instance produced by a case of the first family carries the first family's
scope and not the second's.  `defineError` allocates the same way. -/
theorem separate_constructions_distinct_scopes
    (m : ErrorMap) (k : String) (fr fr3 : Nat) (c : ErrorCase)
    (args : List Value) (e : DefinedError)
    (hk : ((That m fr).1).getCase k = some c)
    (he : (invokeThat c args fr3).1 = .ok e) :
    ((That m fr).1).scope ≠ ((That m ((That m fr).2)).1).scope ∧
    e.scope = ((That m fr).1).scope ∧
    e.scope ≠ ((That m ((That m fr).2)).1).scope ∧
    ((defineError m fr).1).scope ≠
        ((defineError m ((defineError m fr).2)).1).scope := by
  obtain ⟨hc, hs, _⟩ := That_getCase_fields m fr k c hk
  obtain ⟨_, _, hesc, _, _, _⟩ := invokeThat_ok_fields c args fr3 e he
  refine ⟨?_, ?_, ?_, ?_⟩
  · show fr ≠ fr + 1
    omega
  · rw [hesc, hs]
    rfl
  · rw [hesc, hs]
    show fr ≠ fr + 1
    omega
  · show fr ≠ fr + 1
    omega

/-- C2 witness: two successive `That` calls on the one-case schema. -/
theorem separate_constructions_distinct_scopes_w :
    ((That [("K", ErrorSpec.str "m")] 0).1).getCase "K"
        = some (ErrorCase.mk "K" 0 (ErrorSpec.str "m")) ∧
    (invokeThat (ErrorCase.mk "K" 0 (ErrorSpec.str "m")) [] 5).1
        = .ok (mkInstance 5 "K" [] 0 "m") ∧
    (((That [("K", ErrorSpec.str "m")] 0).1).scope ≠
        ((That [("K", ErrorSpec.str "m")]
            ((That [("K", ErrorSpec.str "m")] 0).2)).1).scope ∧
      (mkInstance 5 "K" [] 0 "m").scope = ((That [("K", ErrorSpec.str "m")] 0).1).scope ∧
      (mkInstance 5 "K" [] 0 "m").scope ≠
        ((That [("K", ErrorSpec.str "m")]
            ((That [("K", ErrorSpec.str "m")] 0).2)).1).scope ∧
      ((defineError [("K", ErrorSpec.str "m")] 0).1).scope ≠
        ((defineError [("K", ErrorSpec.str "m")]
            ((defineError [("K", ErrorSpec.str "m")] 0).2)).1).scope) :=
  ⟨rfl, rfl,
    separate_constructions_distinct_scopes [("K", ErrorSpec.str "m")] "K" 0 5
      (ErrorCase.mk "K" 0 (ErrorSpec.str "m")) []
      (mkInstance 5 "K" [] 0 "m") rfl rfl⟩

/-- C3: a case whose spec is a message function of declared parameter count
`arity`, invoked with exactly `arity` payload arguments, produces an instance
whose message is the spec function applied to those arguments and whose
stored payload — returned verbatim by `payloadOf` — is exactly that argument
list, in all three factory revisions (the options-sniffing branch never fires
because the argument count does not exceed the declared count). -/
theorem fn_spec_exact_arity
    (arity : Nat) (f : List Value → String) (k : String) (sc fr : Nat)
    (args : List Value) (hlen : args.length = arity) :
    (∃ e, (invokeOldThat (ErrorCase.mk k sc (ErrorSpec.fn arity f)) args fr).1
        = .ok e ∧ e.message = f args ∧ payloadOf e = args) ∧
    (∃ e, (invokeDefineError (ErrorCase.mk k sc (ErrorSpec.fn arity f)) args fr).1
        = some e ∧ e.message = f args ∧ payloadOf e = args) ∧
    (∃ e, (invokeThat (ErrorCase.mk k sc (ErrorSpec.fn arity f)) args fr).1
        = .ok e ∧ e.message = f args ∧ payloadOf e = args) := by
  have hnlt : ¬ arity < args.length := by omega
  refine ⟨⟨mkInstanceOpt fr k args sc (f args) .vundefined, ?_, rfl, rfl⟩,
          ⟨mkInstanceOpt fr k args sc (f args) .vundefined, ?_, rfl, rfl⟩,
          ⟨mkInstance fr k args sc (f args), ?_, rfl, rfl⟩⟩
  · simp [invokeOldThat, hnlt]
  · simp [invokeDefineError, hnlt]
  · simp [invokeThat]

/-- C3 witness: the two-parameter case `(a, b) => "p"` invoked with the two
arguments `[1, "x"]`. -/
theorem fn_spec_exact_arity_w :
    ([Value.vnum 1, Value.vstr "x"].length = 2) ∧
    ((∃ e, (invokeOldThat
        (ErrorCase.mk "K" 0 (ErrorSpec.fn 2 (fun _ => "p")))
        [Value.vnum 1, Value.vstr "x"] 0).1 = .ok e ∧
        e.message = "p" ∧ payloadOf e = [Value.vnum 1, Value.vstr "x"]) ∧
      (∃ e, (invokeDefineError
        (ErrorCase.mk "K" 0 (ErrorSpec.fn 2 (fun _ => "p")))
        [Value.vnum 1, Value.vstr "x"] 0).1 = some e ∧
        e.message = "p" ∧ payloadOf e = [Value.vnum 1, Value.vstr "x"]) ∧
      (∃ e, (invokeThat
        (ErrorCase.mk "K" 0 (ErrorSpec.fn 2 (fun _ => "p")))
        [Value.vnum 1, Value.vstr "x"] 0).1 = .ok e ∧
        e.message = "p" ∧ payloadOf e = [Value.vnum 1, Value.vstr "x"])) :=
  ⟨rfl, fn_spec_exact_arity 2 (fun _ => "p") "K" 0 0
    [Value.vnum 1, Value.vstr "x"] rfl⟩

/-- C6 (failing input, evaluated): on a spec that is neither a string nor a
function, the `defineError` factory of `define.ts` falls through both
`typeof` branches and silently returns `undefined` instead of throwing,
whereas both `That` factory revisions throw at the call site as the spec
requires. -/
theorem invalid_spec_defineError_returns_undefined :
    (invokeDefineError (ErrorCase.mk "Bad" 0 ErrorSpec.other) [] 0).1 = none ∧
    (invokeOldThat (ErrorCase.mk "Bad" 0 ErrorSpec.other) [] 0).1
        = Except.error "Invalid ErrorSpec" ∧
    (invokeThat (ErrorCase.mk "Bad" 0 ErrorSpec.other) [] 0).1
        = Except.error "Invalid error spec" :=
  ⟨rfl, rfl, rfl⟩

/-- C7: invoking a well-formed case twice with the same payload allocates two
distinct error instances; both report `is(case_k)` true and `is(case_j)`
false for every other case name `j` of the same family. -/
theorem invoke_twice_distinct_instances
    (m : ErrorMap) (k j : String) (fr fr2 : Nat) (c cj : ErrorCase)
    (args : List Value)
    (hk : ((That m fr).1).getCase k = some c)
    (hj : ((That m fr).1).getCase j = some cj)
    (hne : j ≠ k)
    (hwf : c.spec.wf = true) :
    ∃ e1 e2 : DefinedError,
      (invokeThat c args fr2).1 = .ok e1 ∧
      (invokeThat c args ((invokeThat c args fr2).2)).1 = .ok e2 ∧
      e1 ≠ e2 ∧
      e1.isCase c = true ∧ e2.isCase c = true ∧
      e1.isCase cj = false ∧ e2.isCase cj = false := by
  obtain ⟨hkc, _, _⟩ := That_getCase_fields m fr k c hk
  obtain ⟨hjc, _, _⟩ := That_getCase_fields m fr j cj hj
  obtain ⟨e1, he1⟩ := invokeThat_wf_ok c args fr2 hwf
  obtain ⟨hc1, _, _, hoid1, _, hctr⟩ := invokeThat_ok_fields c args fr2 e1 he1
  obtain ⟨e2, he2⟩ := invokeThat_wf_ok c args ((invokeThat c args fr2).2) hwf
  obtain ⟨hc2, _, _, hoid2, _, _⟩ := invokeThat_ok_fields c args _ e2 he2
  have hcodes : c.code ≠ cj.code := by
    rw [hkc, hjc]
    exact fun hh => hne hh.symm
  refine ⟨e1, e2, he1, he2, ?_, ?_, ?_, ?_, ?_⟩
  · intro hEq
    rw [hEq] at hoid1
    rw [hctr] at hoid2
    omega
  · simp [DefinedError.isCase, hc1]
  · simp [DefinedError.isCase, hc2]
  · simp [DefinedError.isCase, hc1, hcodes]
  · simp [DefinedError.isCase, hc2, hcodes]

/-- C7 witness: the two-case family `That {A: "x", B: "y"}`, case `A` invoked
twice. -/
theorem invoke_twice_distinct_instances_w :
    ((That [("A", ErrorSpec.str "x"), ("B", ErrorSpec.str "y")] 0).1).getCase "A"
        = some (ErrorCase.mk "A" 0 (ErrorSpec.str "x")) ∧
    ((That [("A", ErrorSpec.str "x"), ("B", ErrorSpec.str "y")] 0).1).getCase "B"
        = some (ErrorCase.mk "B" 0 (ErrorSpec.str "y")) ∧
    (ErrorCase.mk "A" 0 (ErrorSpec.str "x")).spec.wf = true ∧
    (∃ e1 e2 : DefinedError,
      (invokeThat (ErrorCase.mk "A" 0 (ErrorSpec.str "x")) [] 1).1 = .ok e1 ∧
      (invokeThat (ErrorCase.mk "A" 0 (ErrorSpec.str "x")) []
          ((invokeThat (ErrorCase.mk "A" 0 (ErrorSpec.str "x")) [] 1).2)).1 = .ok e2 ∧
      e1 ≠ e2 ∧
      e1.isCase (ErrorCase.mk "A" 0 (ErrorSpec.str "x")) = true ∧
      e2.isCase (ErrorCase.mk "A" 0 (ErrorSpec.str "x")) = true ∧
      e1.isCase (ErrorCase.mk "B" 0 (ErrorSpec.str "y")) = false ∧
      e2.isCase (ErrorCase.mk "B" 0 (ErrorSpec.str "y")) = false) :=
  ⟨rfl, rfl, rfl,
    invoke_twice_distinct_instances
      [("A", ErrorSpec.str "x"), ("B", ErrorSpec.str "y")] "A" "B" 0 1
      (ErrorCase.mk "A" 0 (ErrorSpec.str "x"))
      (ErrorCase.mk "B" 0 (ErrorSpec.str "y")) [] rfl rfl (by decide) rfl⟩

/-- C8: `with` returns the very same instance (same allocation id) and leaves
code, scope and payload untouched, so after any sequence of `with` calls the
instance reports the same `is` verdict against every case. -/
theorem with_preserves_identity (e : DefinedError)
    (options : Option ErrorOptions) (meta : List (String × Value)) :
    (e.withOptions options meta).oid = e.oid ∧
    (e.withOptions options meta).code = e.code ∧
    (e.withOptions options meta).scope = e.scope ∧
    (e.withOptions options meta).payload = e.payload ∧
    (∀ c : ErrorCase, (e.withOptions options meta).isCase c = e.isCase c) ∧
    (∀ (calls : List (Option ErrorOptions × List (String × Value)))
        (c : ErrorCase),
      (calls.foldl (fun acc p => acc.withOptions p.1 p.2) e).isCase c
        = e.isCase c) := by
  have hfold : ∀ (calls : List (Option ErrorOptions × List (String × Value)))
      (x : DefinedError),
      (calls.foldl (fun acc p => acc.withOptions p.1 p.2) x).code = x.code := by
    intro calls
    induction calls with
    | nil => intro x; rfl
    | cons a t ih => intro x; simpa using ih (x.withOptions a.1 a.2)
  exact ⟨rfl, rfl, rfl, rfl, fun c => rfl,
    fun calls c => by simp [DefinedError.isCase, hfold calls e]⟩

/-- A property test passes exactly on a present string value. -/
theorem typeofString_iff (x : Option Value) :
    typeofString x = true ↔ ∃ s, x = some (.vstr s) := by
  cases x with
  | none => simp [typeofString]
  | some v => cases v <;> simp [typeofString]

/-- A property test passes exactly on a present symbol value. -/
theorem typeofSymbol_iff (x : Option Value) :
    typeofSymbol x = true ↔ ∃ n, x = some (.vsym n) := by
  cases x with
  | none => simp [typeofSymbol]
  | some v => cases v <;> simp [typeofSymbol]

/-- C9: `isDefinedError` accepts exactly the `Error` instances whose
`ErrorBrand` field is `true`, whose public `code` is a string and whose
public `scope` is a symbol; it rejects every primitive, rejects every
non-`Error` object even when it carries those fields structurally, and
accepts the view of every family-produced instance. -/
theorem isDefinedError_characterization :
    (∀ o : ErrObj, isDefinedError (.object o) = true ↔
        (o.instOfError = true ∧ o.brandField = some (.vbool true) ∧
         (∃ s, o.codeProp = some (.vstr s)) ∧
         (∃ n, o.scopeProp = some (.vsym n)))) ∧
    (∀ v : Value, isDefinedError (.prim v) = false) ∧
    (∀ o : ErrObj, isDefinedError (.object { o with instOfError := false }) = false) ∧
    (∀ e : DefinedError, isDefinedError e.asJSValue = true) := by
  refine ⟨?_, fun v => rfl, fun o => rfl, fun e => rfl⟩
  intro o
  by_cases hio : o.instOfError <;>
    simp [isDefinedError, hio, typeofString_iff, typeofSymbol_iff, and_assoc]

/-- C10: `with` assigns `options?.cause` unconditionally — when the options
are omitted (or present with no cause) a previously attached cause is
overwritten with `undefined` — while the metadata record is merged
additively: a key maps to the new value when `meta` carries it and to the
previously stored value otherwise. -/
theorem with_overwrites_cause_merges_meta (e : DefinedError)
    (options : Option ErrorOptions) (meta : List (String × Value)) :
    (e.withOptions options meta).cause
        = (options.map ErrorOptions.cause).getD .vundefined ∧
    (e.withOptions none meta).cause = .vundefined ∧
    (e.withOptions (some { cause := .vundefined }) meta).cause = .vundefined ∧
    (∀ k, metaGet (e.withOptions options meta).meta k
        = (metaGet meta k).or (metaGet e.meta k)) :=
  ⟨rfl, rfl, rfl, fun k => metaGet_append e.meta meta k⟩

/-- C4: `from` called with a foreign instance whose runtime class and
ancestor classes were never enrolled or bridged raises the "not registered"
failure instead of returning a value. -/
theorem from_unregistered_fails (f : ErrorFamily) (e : ForeignError) (fr : Nat)
    (h : ∀ en ∈ f.enrollments, en.classId ∉ e.classChain) :
    (f.fromForeign e fr).1 = .error "not registered" :=
  fromForeign_no_match f e fr h

/-- C4 witness: a family with one enrollment for class `5`, given a foreign
instance of class `1` with ancestor `2`. -/
theorem from_unregistered_fails_w :
    (∀ en ∈ (ErrorFamily.mk 0 []
        [Enrollment.enrollEntry 5 (ErrorCase.mk "NotFound" 0 (ErrorSpec.str "m")) none]).enrollments,
      en.classId ∉ (ForeignError.mk 7 [1, 2]).classChain) ∧
    ((ErrorFamily.mk 0 []
        [Enrollment.enrollEntry 5 (ErrorCase.mk "NotFound" 0 (ErrorSpec.str "m")) none]).fromForeign
        (ForeignError.mk 7 [1, 2]) 0).1 = .error "not registered" :=
  ⟨by
    intro en hen
    rw [List.mem_singleton] at hen
    subst hen
    simp [Enrollment.classId],
   from_unregistered_fails _ _ 0 (by
    intro en hen
    rw [List.mem_singleton] at hen
    subst hen
    simp [Enrollment.classId])⟩

/-- C5: `enroll` returns a new family whose table is the original's plus the
new entry, reusing the original's cases and scope unchanged; `from` on the
original family still fails for the enrolled class while `from` on the
extended family succeeds. -/
theorem enroll_copy_on_extend
    (f : ErrorFamily) (classId : Nat) (target : ErrorCase)
    (tr : Option (ForeignError → List Value)) (e : ForeignError) (fr : Nat)
    (f2 : ErrorFamily)
    (hwf : target.spec.wf = true)
    (hnew : ∀ en ∈ f.enrollments, en.classId ∉ e.classChain)
    (hc : classId ∈ e.classChain)
    (henroll : f.enroll classId target tr = .ok f2) :
    (f.fromForeign e fr).1 = .error "not registered" ∧
    (∃ e2, (f2.fromForeign e fr).1 = .ok e2) ∧
    f2.cases = f.cases ∧ f2.scope = f.scope ∧
    f2.enrollments
        = f.enrollments ++ [.enrollEntry classId target tr] := by
  unfold ErrorFamily.enroll at henroll
  split at henroll
  case isFalse => cases henroll
  case isTrue hsc =>
  have hf2 : f2 = { f with
      enrollments := f.enrollments ++ [.enrollEntry classId target tr] } := by
    cases henroll
    rfl
  subst hf2
  refine ⟨fromForeign_no_match f e fr hnew, ?_, rfl, rfl, rfl⟩
  have hfind : ({ f with
      enrollments := f.enrollments ++ [.enrollEntry classId target tr] } :
        ErrorFamily).enrollments.reverse.find? (fun en => en.matchesF e)
      = some (.enrollEntry classId target tr) := by
    simp only [List.reverse_append, List.reverse_cons, List.reverse_nil,
      List.nil_append, List.singleton_append, List.find?_cons]
    have hm : Enrollment.matchesF (.enrollEntry classId target tr) e = true := by
      simp [Enrollment.matchesF, Enrollment.classId, hc]
    rw [hm]
  obtain ⟨inst, hinst⟩ :=
    invokeThat_wf_ok target ((tr.map (fun t => t e)).getD []) fr hwf
  refine ⟨{ inst with cause := .vobj e.oid .vundefined }, ?_⟩
  rw [ErrorFamily.fromForeign, hfind]
  simp only
  cases hrun : invokeThat target ((tr.map (fun t => t e)).getD []) fr with
  | mk r fresh2 =>
    rw [hrun] at hinst
    simp only at hinst
    subst hinst
    rfl

/-- C5 witness: enrolling class `5` onto the `NotFound` case of a one-case
family and feeding `from` a foreign instance of class `5`. -/
theorem enroll_copy_on_extend_w :
    (ErrorCase.mk "NotFound" 0 (ErrorSpec.str "m")).spec.wf = true ∧
    (5 ∈ (ForeignError.mk 7 [5]).classChain) ∧
    ((ErrorFamily.mk 0 [("NotFound", ErrorCase.mk "NotFound" 0 (ErrorSpec.str "m"))]
        []).enroll 5 (ErrorCase.mk "NotFound" 0 (ErrorSpec.str "m")) none
      = .ok (ErrorFamily.mk 0
          [("NotFound", ErrorCase.mk "NotFound" 0 (ErrorSpec.str "m"))]
          [Enrollment.enrollEntry 5
            (ErrorCase.mk "NotFound" 0 (ErrorSpec.str "m")) none])) ∧
    (((ErrorFamily.mk 0 [("NotFound", ErrorCase.mk "NotFound" 0 (ErrorSpec.str "m"))]
        []).fromForeign (ForeignError.mk 7 [5]) 3).1 = .error "not registered" ∧
      (∃ e2, ((ErrorFamily.mk 0
          [("NotFound", ErrorCase.mk "NotFound" 0 (ErrorSpec.str "m"))]
          [Enrollment.enrollEntry 5
            (ErrorCase.mk "NotFound" 0 (ErrorSpec.str "m")) none]).fromForeign
          (ForeignError.mk 7 [5]) 3).1 = .ok e2)) :=
  ⟨rfl, by decide, rfl,
    (by
      have h := enroll_copy_on_extend
        (ErrorFamily.mk 0
          [("NotFound", ErrorCase.mk "NotFound" 0 (ErrorSpec.str "m"))] [])
        5 (ErrorCase.mk "NotFound" 0 (ErrorSpec.str "m")) none
        (ForeignError.mk 7 [5]) 3
        (ErrorFamily.mk 0
          [("NotFound", ErrorCase.mk "NotFound" 0 (ErrorSpec.str "m"))]
          [Enrollment.enrollEntry 5
            (ErrorCase.mk "NotFound" 0 (ErrorSpec.str "m")) none])
        rfl (by intro en hen; cases hen) (by decide) rfl
      exact ⟨h.1, h.2.1⟩)⟩

end Ferror
